import Mathlib

/-!
Verification model of the `benwh` Go package (FranklinWH status client).

The pure computational core of `benwh.go` (request construction, envelope
marshalling/splicing, response validation: status-code dispatch, CRC-32
verification over the quoted rendering of the inner payload, payload
decoding) and of the retry/backoff loop in `examples/status.go` is embedded
as executable Lean definitions.  Strings are modelled as `List Char`,
byte strings as `List Nat` (each element < 256), machine integers as `Nat`
with explicit `% 2 ^ 32` where overflow matters.

A deliberate point of fidelity: `benwh.go` contains several spots where a
freshly assigned error `err2` is followed by a test of the *outer* `err`
variable (lines 220, 241, 258 and 266 of benwh.go).  At those spots the
outer `err` is always `nil`, so the corresponding error branches are dead
code.  The model reproduces the actual (buggy) behaviour: the outer decode
error, the CRC hex-parse error and the dataArea decode error are all
ignored.
-/

set_option maxRecDepth 200000

namespace Benwh

/-- Literal left-brace character (written via its code point). -/
def lbrace : Char := Char.ofNat 123

/-- Literal right-brace character (written via its code point). -/
def rbrace : Char := Char.ofNat 125

/-- The characters of a Lean string, the form in which the model handles
Go strings. -/
def strL (s : String) : List Char := s.data

/-- UTF-8 bytes of one character, as in Go's conversion `[]byte(string)`.
Exact for all code points (standard 1-4 byte UTF-8). -/
def charBytes (c : Char) : List Nat :=
  let n := c.toNat
  if n < 0x80 then [n]
  else if n < 0x800 then [0xC0 + n / 64, 0x80 + n % 64]
  else if n < 0x10000 then
    [0xE0 + n / 4096, 0x80 + n / 64 % 64, 0x80 + n % 64]
  else
    [0xF0 + n / 262144, 0x80 + n / 4096 % 64, 0x80 + n / 64 % 64,
     0x80 + n % 64]

/-- `[]byte(s)` for a Go string `s`: UTF-8 bytes. -/
def strBytes (s : List Char) : List Nat := (s.map charBytes).flatten

/-- One shift-xor round of the bit-reflected CRC-32 (IEEE) computation,
polynomial 0xEDB88320. -/
def crc32Round (crc : Nat) : Nat :=
  if crc % 2 = 1 then (crc / 2) ^^^ 0xEDB88320 else crc / 2

/-- Fold one byte into the running CRC-32 state: xor the byte in, then
eight shift-xor rounds. -/
def crc32Byte (crc b : Nat) : Nat :=
  Nat.iterate crc32Round 8 (crc ^^^ b)

/-- `crc32.ChecksumIEEE` from Go's `hash/crc32`: bit-reflected CRC-32 with
initial state and final xor 0xFFFFFFFF. -/
def crc32 (bs : List Nat) : Nat :=
  (bs.foldl crc32Byte 0xFFFFFFFF) ^^^ 0xFFFFFFFF

/-- Decimal digit character for `d < 10`. -/
def digitChar (d : Nat) : Char := Char.ofNat (48 + d)

/-- Uppercase hexadecimal digit character for `d < 16`. -/
def hexCharUpper (d : Nat) : Char :=
  if d < 10 then Char.ofNat (48 + d) else Char.ofNat (55 + d)

/-- Lowercase hexadecimal digit character for `d < 16`. -/
def hexCharLower (d : Nat) : Char :=
  if d < 10 then Char.ofNat (48 + d) else Char.ofNat (87 + d)

/-- `fmt.Sprintf("%08X", n)` for a `uint32` value: eight uppercase hex
digits, zero padded. -/
def formatHex8 (n : Nat) : List Char :=
  [hexCharUpper (n / 16 ^ 7 % 16), hexCharUpper (n / 16 ^ 6 % 16),
   hexCharUpper (n / 16 ^ 5 % 16), hexCharUpper (n / 16 ^ 4 % 16),
   hexCharUpper (n / 16 ^ 3 % 16), hexCharUpper (n / 16 ^ 2 % 16),
   hexCharUpper (n / 16 % 16), hexCharUpper (n % 16)]

/-- Value of one hexadecimal digit character, either case; `none` for a
non-hex character. -/
def hexDigitVal (c : Char) : Option Nat :=
  if 48 ≤ c.toNat ∧ c.toNat ≤ 57 then some (c.toNat - 48)
  else if 65 ≤ c.toNat ∧ c.toNat ≤ 70 then some (c.toNat - 55)
  else if 97 ≤ c.toNat ∧ c.toNat ≤ 102 then some (c.toNat - 87)
  else none

/-- Accumulating core of hexadecimal parsing. -/
def parseHexCore (acc : Nat) : List Char → Option Nat
  | [] => some acc
  | c :: cs =>
    match hexDigitVal c with
    | none => none
    | some d => parseHexCore (16 * acc + d) cs

/-- Numeric value of an all-hex, non-empty string (either case accepted,
as `strconv.ParseUint(s, 16, ...)` does); `none` on a syntax error. -/
def parseHex (s : List Char) : Option Nat :=
  match s with
  | [] => none
  | _ => parseHexCore 0 s

/-- The `uint64` value produced by Go's `strconv.ParseUint(s, 16, 32)`,
error included in the modelling of the caller: on a syntax error Go
returns 0 (with an error the caller at benwh.go:258 never looks at), on a
range error it returns `1<<32 - 1`. -/
def goParseUintHex32 (s : List Char) : Nat :=
  match parseHex s with
  | none => 0
  | some n => if n < 2 ^ 32 then n else 2 ^ 32 - 1

/-- Go quoting of one character, as in `strconv.Quote` /
`fmt.Sprintf("%q", ...)`.  Exact for ASCII; code points ≥ 0x80 that Go
would print literally are printed literally (the escape of non-printable
non-ASCII runes is not modelled; no claim touches such inputs). -/
def goQuoteChar (c : Char) : List Char :=
  if c = '"' then ['\\', '"']
  else if c = '\\' then ['\\', '\\']
  else if 0x20 ≤ c.toNat ∧ c.toNat < 0x7F then [c]
  else if c.toNat = 7 then ['\\', 'a']
  else if c.toNat = 8 then ['\\', 'b']
  else if c.toNat = 12 then ['\\', 'f']
  else if c.toNat = 10 then ['\\', 'n']
  else if c.toNat = 13 then ['\\', 'r']
  else if c.toNat = 9 then ['\\', 't']
  else if c.toNat = 11 then ['\\', 'v']
  else if c.toNat < 0x20 ∨ c.toNat = 0x7F then
    ['\\', 'x', hexCharLower (c.toNat / 16), hexCharLower (c.toNat % 16)]
  else [c]

/-- `fmt.Sprintf("%q", s)` for a Go string `s`: a double-quoted Go string
literal. -/
def goQuote (s : List Char) : List Char :=
  '"' :: (s.map goQuoteChar).flatten ++ ['"']

/-! ## JSON values

Minimal JSON model covering the documents the package produces and
consumes.  A number is carried as its literal digit text (the model works
at the wire-format level, which is what the splicing invariant and the
checksums are about); a string is a list of characters, escaped on
serialization. -/

mutual

inductive Json : Type where
  | num : List Char → Json
  | str : List Char → Json
  | boolean : Bool → Json
  | null : Json
  | arr : JsonArr → Json
  | obj : JsonObj → Json
  deriving DecidableEq

inductive JsonArr : Type where
  | nil : JsonArr
  | cons : Json → JsonArr → JsonArr
  deriving DecidableEq

inductive JsonObj : Type where
  | nil : JsonObj
  | cons : List Char → Json → JsonObj → JsonObj
  deriving DecidableEq

end

/-- JSON string-body escaping of one character: exactly what Go's
`encoding/json` emits for characters that are not control characters, not
`&`, `<`, `>` and not U+2028/U+2029 (see `goEncChar` for the full
encoder). -/
def escChar (c : Char) : List Char :=
  if c = '"' then ['\\', '"']
  else if c = '\\' then ['\\', '\\']
  else [c]

/-- Serialized body of a JSON string (no surrounding quotes). -/
def serStrBody : List Char → List Char
  | [] => []
  | c :: s => escChar c ++ serStrBody s

mutual

/-- Serialization of a JSON value, no whitespace — the format
`encoding/json.Marshal` emits. -/
def serJson : Json → List Char
  | .num ds => ds
  | .str s => '"' :: serStrBody s ++ ['"']
  | .boolean true => ['t', 'r', 'u', 'e']
  | .boolean false => ['f', 'a', 'l', 's', 'e']
  | .null => ['n', 'u', 'l', 'l']
  | .arr a => '[' :: serArr a ++ [']']
  | .obj o => lbrace :: serObj o ++ [rbrace]

/-- Comma-separated serialization of array items. -/
def serArr : JsonArr → List Char
  | .nil => []
  | .cons v .nil => serJson v
  | .cons v (.cons w a) => serJson v ++ ',' :: serArr (.cons w a)

/-- Comma-separated serialization of object fields. -/
def serObj : JsonObj → List Char
  | .nil => []
  | .cons k v .nil => '"' :: serStrBody k ++ '"' :: ':' :: serJson v
  | .cons k v (.cons k2 v2 o) =>
    '"' :: serStrBody k ++ '"' :: ':' :: serJson v
      ++ ',' :: serObj (.cons k2 v2 o)

end

/-- Decimal digit test on the code point (equivalent to `Char.isDigit`,
stated over `toNat` so that facts about it are arithmetic). -/
def isDigitC (c : Char) : Bool := decide (48 ≤ c.toNat ∧ c.toNat ≤ 57)

/-- Well-formedness of a number literal: non-empty, all decimal digits. -/
def wfNum (ds : List Char) : Bool := !ds.isEmpty && ds.all isDigitC

mutual

/-- Well-formedness of a JSON value: every number literal in it is a
non-empty digit string. -/
def wfJson : Json → Bool
  | .num ds => wfNum ds
  | .str _ => true
  | .boolean _ => true
  | .null => true
  | .arr a => wfArr a
  | .obj o => wfObj o

/-- Well-formedness of array items. -/
def wfArr : JsonArr → Bool
  | .nil => true
  | .cons v a => wfJson v && wfArr a

/-- Well-formedness of object fields. -/
def wfObj : JsonObj → Bool
  | .nil => true
  | .cons _ v o => wfJson v && wfObj o

end

/-- Parse the body of a JSON string up to and including the closing
quote, undoing the escapes `serStrBody` produces (only the escapes of the
quote and the backslash, which are the only escapes either side of the
modelled protocol emits). -/
def parseStrBody : List Char → Option (List Char × List Char)
  | [] => none
  | c :: rest =>
    if c = '"' then some ([], rest)
    else if c = '\\' then
      match rest with
      | [] => none
      | e :: rest2 =>
        if e = '"' ∨ e = '\\' then
          (parseStrBody rest2).map (fun p => (e :: p.1, p.2))
        else none
    else (parseStrBody rest).map (fun p => (c :: p.1, p.2))

mutual

/-- Fuel-indexed recursive-descent parser for one JSON value (no
whitespace, the format `encoding/json.Marshal` emits). -/
def parseVal : Nat → List Char → Option (Json × List Char)
  | 0, _ => none
  | Nat.succ f, s =>
    match s with
    | [] => none
    | c :: rest =>
      if c = '"' then (parseStrBody rest).map (fun p => (.str p.1, p.2))
      else if c = '[' then
        match rest with
        | [] => none
        | d :: r =>
          if d = ']' then some (.arr .nil, r)
          else (parseItems f (d :: r)).map (fun p => (.arr p.1, p.2))
      else if c = lbrace then
        match rest with
        | [] => none
        | d :: r =>
          if d = rbrace then some (.obj .nil, r)
          else (parseFields f (d :: r)).map (fun p => (.obj p.1, p.2))
      else if isDigitC c then
        some (.num ((c :: rest).takeWhile isDigitC),
              (c :: rest).dropWhile isDigitC)
      else if c = 't' then
        match rest with
        | 'r' :: 'u' :: 'e' :: r => some (.boolean true, r)
        | _ => none
      else if c = 'f' then
        match rest with
        | 'a' :: 'l' :: 's' :: 'e' :: r => some (.boolean false, r)
        | _ => none
      else if c = 'n' then
        match rest with
        | 'u' :: 'l' :: 'l' :: r => some (.null, r)
        | _ => none
      else none

/-- Parser for the non-empty item list of a JSON array, consuming the
closing bracket. -/
def parseItems : Nat → List Char → Option (JsonArr × List Char)
  | 0, _ => none
  | Nat.succ f, s =>
    match parseVal f s with
    | none => none
    | some (v, rest) =>
      match rest with
      | ',' :: r => (parseItems f r).map (fun p => (.cons v p.1, p.2))
      | ']' :: r => some (.cons v .nil, r)
      | _ => none

/-- Parser for the non-empty field list of a JSON object, consuming the
closing brace. -/
def parseFields : Nat → List Char → Option (JsonObj × List Char)
  | 0, _ => none
  | Nat.succ f, s =>
    match s with
    | [] => none
    | c :: rest =>
      if c = '"' then
        match parseStrBody rest with
        | none => none
        | some (k, r1) =>
          match r1 with
          | ':' :: r2 =>
            match parseVal f r2 with
            | none => none
            | some (v, r3) =>
              match r3 with
              | [] => none
              | d :: r4 =>
                if d = ',' then
                  (parseFields f r4).map (fun p => (.cons k v p.1, p.2))
                else if d = rbrace then some (.cons k v .nil, r4)
                else none
          | _ => none
      else none

end

/-- Parse a complete JSON document: one value consuming the whole input.
The fuel `s.length + 1` is enough for any value (each recursion level
consumes at least one character). -/
def parseDoc (s : List Char) : Option Json :=
  match parseVal (s.length + 1) s with
  | some (v, []) => some v
  | _ => none

/-- Field lookup in a JSON object (first match, as `encoding/json` keeps
the last duplicate — duplicates do not occur in the modelled documents). -/
def lookupObj (k : List Char) : JsonObj → Option Json
  | .nil => none
  | .cons k2 v o => if k2 = k then some v else lookupObj k o

/-! ## The program model -/

/-- `encoding/json.Marshal` string escaping of one character (the default
encoder with HTML escaping, as the package uses): quote and backslash get
backslash escapes, `&`, `<`, `>` and U+2028/U+2029 get `\u` escapes,
control characters get `\n`/`\r`/`\t` or `\u00xx`, everything else is
emitted literally. -/
def goEncChar (c : Char) : List Char :=
  if c = '"' then ['\\', '"']
  else if c = '\\' then ['\\', '\\']
  else if c = '&' then strL "\\u0026"
  else if c = '<' then strL "\\u003c"
  else if c = '>' then strL "\\u003e"
  else if c.toNat = 10 then ['\\', 'n']
  else if c.toNat = 13 then ['\\', 'r']
  else if c.toNat = 9 then ['\\', 't']
  else if c.toNat < 0x20 then
    strL "\\u00" ++ [hexCharLower (c.toNat / 16), hexCharLower (c.toNat % 16)]
  else if c.toNat = 0x2028 then strL "\\u2028"
  else if c.toNat = 0x2029 then strL "\\u2029"
  else [c]

/-- Body of `encoding/json.Marshal` string encoding (no surrounding
quotes). -/
def goEncBody : List Char → List Char
  | [] => []
  | c :: s => goEncChar c ++ goEncBody s

/-- `encoding/json.Marshal` of a Go string value. -/
def goEncStr (s : List Char) : List Char :=
  '"' :: goEncBody s ++ ['"']

/-- Fuel-indexed accumulator loop for decimal rendering (fuel ≥ n + 1 is
always enough since the argument at least halves each step). -/
def natDecAux : Nat → Nat → List Char → List Char
  | 0, _, acc => acc
  | Nat.succ f, n, acc =>
    if n < 10 then digitChar n :: acc
    else natDecAux f (n / 10) (digitChar (n % 10) :: acc)

/-- Decimal rendering of a natural number, as `encoding/json` emits for
the integer fields of the request. -/
def natDec (n : Nat) : List Char := natDecAux (n + 1) n []

/-- `MQTTRequest` from benwh.go: the outbound command envelope.  `Type`
is called `Typ` here because `Type` is reserved in Lean; integer fields
are modelled as `Nat` (the program only ever stores non-negative values
in them). -/
structure MQTTRequest where
  Lang : List Char
  CmdType : Nat
  EquipNo : List Char
  Typ : Nat
  TimeStamp : Nat
  Snno : Nat
  Len : Nat
  CRC : List Char
  DataArea : List Char
  deriving DecidableEq

/-- `encoding/json.Marshal` of an `MQTTRequest` value: fields in struct
order, no whitespace, strings escaped by the default encoder. -/
def marshalMQTTRequest (r : MQTTRequest) : List Char :=
  lbrace ::
    (strL "\"lang\":" ++ goEncStr r.Lang
     ++ strL ",\"cmdType\":" ++ natDec r.CmdType
     ++ strL ",\"equipNo\":" ++ goEncStr r.EquipNo
     ++ strL ",\"type\":" ++ natDec r.Typ
     ++ strL ",\"timeStamp\":" ++ natDec r.TimeStamp
     ++ strL ",\"snno\":" ++ natDec r.Snno
     ++ strL ",\"len\":" ++ natDec r.Len
     ++ strL ",\"crc\":" ++ goEncStr r.CRC
     ++ strL ",\"dataArea\":" ++ goEncStr r.DataArea)
  ++ [rbrace]

/-- `bytes.Replace(s, pat, repl, 1)` for a non-empty pattern: replace the
first occurrence of `pat` in `s` by `repl` (`s` unchanged when `pat` does
not occur). -/
def replaceFirst (pat repl : List Char) : List Char → List Char
  | [] => []
  | c :: t =>
    if pat.isPrefixOf (c :: t) then repl ++ (c :: t).drop pat.length
    else c :: replaceFirst pat repl t

/-- The quoted placeholder `":data-area:"` that `Status` splices the
inner payload over (benwh.go:217). -/
def placeholder : List Char := strL "\":data-area:\""

/-- Lines 212-217 of benwh.go: marshal the envelope with the placeholder
in the dataArea slot, then splice the literal inner-payload bytes over
the quoted placeholder. -/
def buildEnvelope (r : MQTTRequest) (payload : List Char) : List Char :=
  replaceFirst placeholder payload (marshalMQTTRequest r)

/-- The fixed inner payload of a status request (benwh.go:198). -/
def statusPayload : List Char := strL "\x7b\"opt\":1,\"refreshData\":1\x7d"

/-- `Config` from benwh.go: client authentication and access
information. -/
structure Config where
  Email : List Char
  Device : List (List Char)
  Password : List Char
  deriving DecidableEq

/-- `Conn` from benwh.go, minus the HTTP client: config and login
token. -/
structure Conn where
  config : Config
  token : List Char
  deriving DecidableEq

/-- The unguarded device access `conn.config.Device[0]` at benwh.go:204,
modelled as an optional lookup: `none` is the run-time panic of the Go
original on an empty device list. -/
def statusEquipNo (conn : Conn) : Option (List Char) :=
  conn.config.Device[0]?

/-- Lines 198-211 of benwh.go: the outbound command envelope built by
`Status` (before marshalling and splicing), given the current Unix time
and a proof that the device access is in bounds. -/
def mkStatusRequest (conn : Conn) (now : Nat)
    (h : conn.config.Device ≠ []) : MQTTRequest :=
  { Lang := strL "EN_US"
    CmdType := 203
    EquipNo := conn.config.Device.head h
    Typ := 0
    TimeStamp := now
    Snno := 1
    Len := (strBytes statusPayload).length
    CRC := formatHex8 (crc32 (strBytes statusPayload))
    DataArea := strL ":data-area:" }

/-- `MQTTResult` from benwh.go (`Type` renamed `Typ`). -/
structure MQTTResult where
  CmdType : Nat
  EquipNo : List Char
  Typ : Nat
  TimeStamp : Nat
  Snno : Nat
  Len : Nat
  CRC : List Char
  DataArea : List Char
  deriving DecidableEq

/-- `MQTTResponse` from benwh.go. -/
structure MQTTResponse where
  Code : Nat
  Message : List Char
  Result : MQTTResult
  Total : Nat
  Success : Bool
  deriving DecidableEq

/-- The zero value of `MQTTResult`. -/
def zeroMQTTResult : MQTTResult :=
  { CmdType := 0, EquipNo := [], Typ := 0, TimeStamp := 0, Snno := 0,
    Len := 0, CRC := [], DataArea := [] }

/-- The zero value of `MQTTResponse`, which is what `Status` dispatches
on when the body fails to decode (the decode error is ignored, see
benwh.go:241). -/
def zeroMQTTResponse : MQTTResponse :=
  { Code := 0, Message := [], Result := zeroMQTTResult, Total := 0,
    Success := false }

/-- The distinguishable error outcomes of `Status` after the body has
been read (benwh.go:240-270).  `retryLater` is the sentinel
`ErrRetryLater`; every other constructor is a `fmt.Errorf` failure.
`mqttDecodeError`, `invalidCRCNotHex` and `statusDecodeError` are the
errors of lines 242, 259 and 267, unreachable in the code as written
because the lines before them test `err` instead of `err2`. -/
inductive StatusError : Type where
  | retryLater : StatusError
  | unexpectedCode : Nat → StatusError
  | mqttDecodeError : StatusError
  | invalidCRCNotHex : List Char → StatusError
  | crcMismatch : Nat → Nat → StatusError
  | statusDecodeError : StatusError
  deriving DecidableEq

/-- `json.Unmarshal` of the inner dataArea payload into the `DataStatus`
record, success/failure only: the payload must be one complete JSON
object (or `null`, which Go accepts and leaves the zero value).  The
decoded record is carried as the raw JSON object; per-field extraction
is never read by the modelled claims. -/
def decodeDataStatus (s : List Char) : Option Json :=
  match parseDoc s with
  | some (.obj o) => some (.obj o)
  | some .null => some (.obj .nil)
  | _ => none

/-- The zero value of the decoded status record (`&DataStatus{}`),
represented as the empty object. -/
def zeroDataStatus : Json := Json.obj .nil

/-- Lines 245-270 of benwh.go: dispatch on the decoded response
envelope.  Code 102 is `ErrRetryLater`; code 200 verifies the CRC-32 of
the *quoted* rendering of the inner payload against the declared hex
checksum and then decodes the payload; any other code is fatal.  Two
faithful reproductions of bugs in the original: line 258 tests `err`
instead of `err2`, so a non-hex declared checksum is never reported and
`got` is `ParseUint`'s on-error value; line 266 likewise, so a payload
that fails to decode still yields a non-error (zero-valued) record. -/
def handleDecoded (m : MQTTResponse) : Except StatusError Json :=
  if m.Code = 102 then .error .retryLater
  else if m.Code = 200 then
    let want := crc32 (strBytes (goQuote m.Result.DataArea))
    let got := goParseUintHex32 m.Result.CRC
    if got ≠ want then .error (.crcMismatch got want)
    else .ok ((decodeDataStatus m.Result.DataArea).getD zeroDataStatus)
  else .error (.unexpectedCode m.Code)

/-- Numeric value of a decimal digit string (how the model reads a JSON
number literal into an integer field). -/
def digitsVal (ds : List Char) : Nat :=
  ds.foldl (fun a c => 10 * a + (c.toNat - 48)) 0

/-- `json.Unmarshal` of the response body into `MQTTResponse`:
unmentioned fields keep their zero value, `null` leaves the zero value,
a document or field of the wrong shape is a decode error (`none`). -/
def decodeMQTTResponse (body : List Char) : Option MQTTResponse :=
  match parseDoc body with
  | some .null => some zeroMQTTResponse
  | some (.obj o) =>
    let codeF := match lookupObj (strL "code") o with
      | none => some 0
      | some .null => some 0
      | some (.num ds) => some (digitsVal ds)
      | some _ => none
    let resF : Option MQTTResult := match lookupObj (strL "result") o with
      | none => some zeroMQTTResult
      | some .null => some zeroMQTTResult
      | some (.obj ro) =>
        let crcF := match lookupObj (strL "crc") ro with
          | none => some []
          | some .null => some []
          | some (.str s) => some s
          | some _ => none
        let daF := match lookupObj (strL "dataArea") ro with
          | none => some []
          | some .null => some []
          | some (.str s) => some s
          | some _ => none
        match crcF, daF with
        | some crc, some da => some { zeroMQTTResult with CRC := crc, DataArea := da }
        | _, _ => none
      | some _ => none
    match codeF, resF with
    | some code, some res => some { zeroMQTTResponse with Code := code, Result := res }
    | _, _ => none
  | _ => none

/-- Lines 240-270 of benwh.go: decode the raw body, then dispatch.  Line
241 tests `err` instead of `err2`, so a body that fails to decode is
silently replaced by the zero-valued response (whose code 0 then hits
the default branch of the switch). -/
def handleBody (body : List Char) : Except StatusError Json :=
  handleDecoded ((decodeMQTTResponse body).getD zeroMQTTResponse)

/-- The one field of `LoginResult` the client reads (benwh.go:186);
the remaining fields of the Go struct are never consulted. -/
structure LoginResult where
  Token : List Char
  deriving DecidableEq

/-- `json.Unmarshal` of the login response body, restricted to the
`result.token` path that `NewConn` reads: unmentioned fields and `null`
leave the zero value (empty token), a document or field of the wrong
shape is a decode error. -/
def decodeLoginResponse (body : List Char) : Option LoginResult :=
  match parseDoc body with
  | some .null => some { Token := [] }
  | some (.obj o) =>
    match lookupObj (strL "result") o with
    | none => some { Token := [] }
    | some .null => some { Token := [] }
    | some (.obj ro) =>
      match lookupObj (strL "token") ro with
      | none => some { Token := [] }
      | some .null => some { Token := [] }
      | some (.str s) => some { Token := s }
      | some _ => none
    | some _ => none
  | _ => none

/-- Lines 163-190 of benwh.go, network effects factored out: `NewConn`
given the login response body.  `none` is the error return; on any body
that decodes, the connection is built with `resp.Result.Token` as the
token, with no check that the token is usable. -/
def newConn (conf : Config) (body : List Char) : Option Conn :=
  (decodeLoginResponse body).map (fun r => { config := conf, token := r.Token })

/-- Decidable equality for `Except`, needed to evaluate outcome equations
by `decide`. -/
instance {ε α : Type} [DecidableEq ε] [DecidableEq α] :
    DecidableEq (Except ε α) := fun a b =>
  match a, b with
  | .error e, .error f =>
    if h : e = f then .isTrue (by rw [h])
    else .isFalse (fun c => h (by injection c))
  | .ok x, .ok y =>
    if h : x = y then .isTrue (by rw [h])
    else .isFalse (fun c => h (by injection c))
  | .error _, .ok _ => .isFalse (fun c => Except.noConfusion c)
  | .ok _, .error _ => .isFalse (fun c => Except.noConfusion c)

/-! ## The retry/backoff loop of examples/status.go -/

/-- The two `Status` outcomes the polling loop of examples/status.go
continues through: `success` (`err == nil`) and `retryLater`
(`benwh.ErrRetryLater`); any other error terminates the process. -/
inductive PollOutcome : Type where
  | success : PollOutcome
  | retryLater : PollOutcome
  deriving DecidableEq

/-- The base backoff, `5 * time.Second`, modelled in seconds. -/
def baseBackoff : Nat := 5

/-- The backoff variable of the loop in examples/status.go (lines
188-201) after a list of outcomes: a success resets it to the base, a
retry doubles it. -/
def backoffAfter (b : Nat) : List PollOutcome → Nat
  | [] => b
  | .success :: rest => backoffAfter baseBackoff rest
  | .retryLater :: rest => backoffAfter (2 * b) rest

/-- The sleeps the loop performs (in seconds, in order) over a list of
outcomes: on `ErrRetryLater` the loop doubles the backoff first and then
sleeps for the doubled value (examples/status.go lines 194-198). -/
def sleepsFrom (b : Nat) : List PollOutcome → List Nat
  | [] => []
  | .success :: rest => sleepsFrom baseBackoff rest
  | .retryLater :: rest => (2 * b) :: sleepsFrom (2 * b) rest

/-! ## Shared fixtures and helper lemmas -/

/-- A concrete connection used to instantiate universally quantified
theorems: one device, as the README example configures. -/
def conn0 : Conn :=
  { config := { Email := strL "user@example.com"
                Device := [strL "SN123"]
                Password := strL "c4ca4238a0b923820dcc509a6f75849b" }
    token := strL "tok" }

/-- A connection whose config carries an empty device list. -/
def connNoDevice : Conn :=
  { config := { Email := strL "user@example.com"
                Device := []
                Password := strL "pw" }
    token := strL "tok" }

/-- Uppercasing of the lowercase hex letters (the case map relevant to
hex checksum strings); leaves every other character unchanged. -/
def hexUpper (c : Char) : Char :=
  if c = 'a' then 'A'
  else if c = 'b' then 'B'
  else if c = 'c' then 'C'
  else if c = 'd' then 'D'
  else if c = 'e' then 'E'
  else if c = 'f' then 'F'
  else c

/-- The code-200 response whose inner payload is not JSON but whose
declared checksum matches the quoted rendering of that payload
(CRC-32 of the 9 bytes of "notjson" quoted is 0xA5BF9497). -/
def c2Response : MQTTResponse :=
  { zeroMQTTResponse with
    Code := 200
    Result := { zeroMQTTResult with
      CRC := strL "A5BF9497"
      DataArea := strL "notjson" } }

/-- A code-200 response declaring the non-hex checksum "XYZ". -/
def c7Response : MQTTResponse :=
  { zeroMQTTResponse with
    Code := 200
    Result := { zeroMQTTResult with
      CRC := strL "XYZ"
      DataArea := strL "notjson" } }

/-- A code-200 response declaring a checksum wider than 32 bits. -/
def c7RangeResponse : MQTTResponse :=
  { zeroMQTTResponse with
    Code := 200
    Result := { zeroMQTTResult with
      CRC := strL "1FFFFFFFF"
      DataArea := strL "notjson" } }

/-- The login response body consisting of the empty JSON object: it
decodes, and it carries no token. -/
def emptyLoginBody : List Char := strL "\x7b\x7d"

/-- Does the input start with a decimal digit?  (The serialization of a
value never ends directly before one, which is what makes greedy number
parsing unambiguous.) -/
def digitStart : List Char → Bool
  | [] => false
  | c :: _ => isDigitC c

mutual

/-- Fuel sufficient for `parseVal` to parse the serialization of a
value. -/
def fuelJ : Json → Nat
  | .num _ => 1
  | .str _ => 1
  | .boolean _ => 1
  | .null => 1
  | .arr a => 1 + fuelA a
  | .obj o => 1 + fuelO o

/-- Fuel sufficient for `parseItems` over serialized array items. -/
def fuelA : JsonArr → Nat
  | .nil => 0
  | .cons v a => 1 + fuelJ v + fuelA a

/-- Fuel sufficient for `parseFields` over serialized object fields. -/
def fuelO : JsonObj → Nat
  | .nil => 0
  | .cons _ v o => 1 + fuelJ v + fuelO o

end

/-- What follows the first item in a serialized array: nothing, or a
comma and the remaining items. -/
def arrTailJ : JsonArr → List Char
  | .nil => []
  | .cons v a => ',' :: serArr (.cons v a)

/-- What follows the first field in a serialized object: nothing, or a
comma and the remaining fields. -/
def objTailJ : JsonObj → List Char
  | .nil => []
  | .cons k v o => ',' :: serObj (.cons k v o)

/-- Characters on which Go's `encoding/json` string encoder agrees with
the plain escaper `escChar`: no control characters, none of `&`, `<`,
`>`, not U+2028/U+2029.  Device serial numbers, hex checksums and the
protocol's fixed strings are all plain. -/
def plainChar (c : Char) : Bool :=
  decide (0x20 ≤ c.toNat) && !(c = '&') && !(c = '<') && !(c = '>')
    && !(c.toNat = 0x2028) && !(c.toNat = 0x2029)

/-- The marshalled command envelope up to (and including) the
`"dataArea":` key — everything that precedes the inner-payload slot. -/
def envPre (r : MQTTRequest) : List Char :=
  lbrace ::
    (strL "\"lang\":" ++ goEncStr r.Lang
     ++ strL ",\"cmdType\":" ++ natDec r.CmdType
     ++ strL ",\"equipNo\":" ++ goEncStr r.EquipNo
     ++ strL ",\"type\":" ++ natDec r.Typ
     ++ strL ",\"timeStamp\":" ++ natDec r.TimeStamp
     ++ strL ",\"snno\":" ++ natDec r.Snno
     ++ strL ",\"len\":" ++ natDec r.Len
     ++ strL ",\"crc\":" ++ goEncStr r.CRC
     ++ strL ",\"dataArea\":")

/-- The fields of the spliced envelope as a JSON object: the nine
request fields in struct order, with `p` sitting in the dataArea slot as
a nested JSON value. -/
def envFields (r : MQTTRequest) (p : Json) : JsonObj :=
  .cons (strL "lang") (.str r.Lang)
    (.cons (strL "cmdType") (.num (natDec r.CmdType))
      (.cons (strL "equipNo") (.str r.EquipNo)
        (.cons (strL "type") (.num (natDec r.Typ))
          (.cons (strL "timeStamp") (.num (natDec r.TimeStamp))
            (.cons (strL "snno") (.num (natDec r.Snno))
              (.cons (strL "len") (.num (natDec r.Len))
                (.cons (strL "crc") (.str r.CRC)
                  (.cons (strL "dataArea") p .nil))))))))

/-- The spliced envelope as a JSON value. -/
def envJson (r : MQTTRequest) (p : Json) : Json := .obj (envFields r p)

/-- `pat` occurs nowhere among the first `k` positions of `s`. -/
def noOccBefore (pat s : List Char) (k : Nat) : Bool :=
  (List.range k).all (fun i => !(pat.isPrefixOf (s.drop i)))

/-- Parse a document and extract (re-serialized) the value in the field
named `key` — "decoding the built envelope and extracting its
inner-payload slot". -/
def extractField (key s : List Char) : Option (List Char) :=
  match parseDoc s with
  | some (.obj o) => (lookupObj key o).map serJson
  | _ => none

/-- A nested inner payload (an object holding numbers, a nested object
and an array) used to instantiate the splicing invariant. -/
def c6Payload : Json :=
  .obj (.cons (strL "opt") (.num (strL "1"))
    (.cons (strL "refreshData") (.num (strL "1"))
      (.cons (strL "window")
        (.obj (.cons (strL "from") (.num (strL "3"))
          (.cons (strL "to") (.num (strL "12")) .nil)))
        (.cons (strL "tags")
          (.arr (.cons (.str (strL "a"))
            (.cons (.num (strL "7")) (.cons .null .nil))))
          .nil))))

/-- Sleeps compose: the sleeps over `l ++ l'` are the sleeps over `l`
followed by the sleeps over `l'` started from the backoff state `l`
leaves behind. -/
theorem sleepsFrom_append (l : List PollOutcome) :
    ∀ (b : Nat) (l' : List PollOutcome),
      sleepsFrom b (l ++ l') = sleepsFrom b l ++ sleepsFrom (backoffAfter b l) l' := by
  induction l with
  | nil => intro b l'; rfl
  | cons o rest ih =>
    intro b l'
    cases o with
    | success => simpa [sleepsFrom, backoffAfter] using ih baseBackoff l'
    | retryLater => simpa [sleepsFrom, backoffAfter] using ih (2 * b) l'

/-- After a success the backoff variable is back at the base value, no
matter what came before. -/
theorem backoffAfter_success (pre : List PollOutcome) :
    ∀ b : Nat, backoffAfter b (pre ++ [.success]) = baseBackoff := by
  induction pre with
  | nil => intro b; rfl
  | cons o rest ih => intro b; cases o <;> exact ih _

/-- The device list of `conn0` is non-empty. -/
theorem conn0_device_ne : conn0.config.Device ≠ [] := by decide

/-! ## Claim theorems -/

/-- C1 counterexample: starting from the base backoff of 5 seconds,
three consecutive `ErrRetryLater` outcomes do NOT produce sleeps of
5, 10, 20 seconds — the loop doubles the backoff before sleeping, so the
sleeps are 10, 20, 40 seconds. -/
theorem c1_backoff_counterexample :
    sleepsFrom baseBackoff [.retryLater, .retryLater, .retryLater]
      ≠ [5, 10, 20] := by decide

/-- C1 (amended): starting from the base backoff of 5 seconds, three
consecutive `ErrRetryLater` outcomes produce sleeps of 10s, 20s and 40s
(the loop doubles the current backoff and then sleeps for the doubled
value), and a success after any number of retries resets the backoff to
5s, so the wait after the next `ErrRetryLater` is 10s. -/
theorem c1_backoff_amended :
    sleepsFrom baseBackoff [.retryLater, .retryLater, .retryLater]
      = [10, 20, 40] ∧
    (∀ (b : Nat) (pre : List PollOutcome),
      backoffAfter b (pre ++ [.success]) = baseBackoff ∧
      sleepsFrom b (pre ++ [.success, .retryLater])
        = sleepsFrom b (pre ++ [.success]) ++ [2 * baseBackoff]) := by
  refine ⟨by decide, fun b pre => ⟨backoffAfter_success pre b, ?_⟩⟩
  rw [sleepsFrom_append pre b [.success, .retryLater],
      sleepsFrom_append pre b [.success]]
  simp [sleepsFrom, baseBackoff]

/-- C5: the outbound command envelope has `Len` equal to the byte length
of the inner payload before splicing (25), and `CRC` equal to the IEEE
CRC-32 of exactly those payload bytes rendered as 8 uppercase zero-padded
hex digits (the concrete literal "6FC3A6BF"). -/
theorem c5_outbound_len_crc (conn : Conn) (now : Nat)
    (h : conn.config.Device ≠ []) :
    (mkStatusRequest conn now h).Len = (strBytes statusPayload).length ∧
    (mkStatusRequest conn now h).Len = 25 ∧
    (mkStatusRequest conn now h).CRC
      = formatHex8 (crc32 (strBytes statusPayload)) ∧
    (mkStatusRequest conn now h).CRC = strL "6FC3A6BF" := by
  refine ⟨rfl, ?_, rfl, ?_⟩
  · show (strBytes statusPayload).length = 25
    decide
  · show formatHex8 (crc32 (strBytes statusPayload)) = strL "6FC3A6BF"
    decide

/-- C5 witness: the theorem applied at a concrete connection and time. -/
theorem c5_outbound_len_crc_witness :
    (mkStatusRequest conn0 1731886695 conn0_device_ne).Len = 25 ∧
    (mkStatusRequest conn0 1731886695 conn0_device_ne).CRC = strL "6FC3A6BF" := by
  have h := c5_outbound_len_crc conn0 1731886695 conn0_device_ne
  exact ⟨h.2.1, h.2.2.2⟩

/-- C10: the unguarded `conn.config.Device[0]` read in `Status` is in
bounds exactly when the configured device list is non-empty; under that
precondition it is the device the outbound envelope carries, and without
it the access faults (models as `none`). -/
theorem c10_device_access (conn : Conn) :
    ((statusEquipNo conn).isSome ↔ conn.config.Device ≠ []) ∧
    (∀ (h : conn.config.Device ≠ []) (now : Nat),
      statusEquipNo conn = some ((mkStatusRequest conn now h).EquipNo)) := by
  constructor
  · cases hd : conn.config.Device with
    | nil => simp [statusEquipNo, hd]
    | cons d ds => simp [statusEquipNo, hd]
  · intro h now
    cases hd : conn.config.Device with
    | nil => exact absurd hd h
    | cons d ds =>
      simp [statusEquipNo, mkStatusRequest, hd]

/-- C10 witness: the in-bounds direction at a concrete one-device
connection, and the out-of-bounds fact at an empty-device connection. -/
theorem c10_device_access_witness :
    statusEquipNo conn0
      = some ((mkStatusRequest conn0 1731886695 conn0_device_ne).EquipNo) ∧
    (statusEquipNo connNoDevice).isSome = false := by
  refine ⟨(c10_device_access conn0).2 conn0_device_ne 1731886695, ?_⟩
  have h := (c10_device_access connNoDevice).1
  by_contra hc
  simp only [Bool.not_eq_false] at hc
  exact (h.mp hc) (by decide)

/-- A hex digit has the same value in either case. -/
theorem hexDigitVal_hexUpper (c : Char) :
    hexDigitVal (hexUpper c) = hexDigitVal c := by
  by_cases ha : c = 'a'; · subst ha; decide
  by_cases hb : c = 'b'; · subst hb; decide
  by_cases hc : c = 'c'; · subst hc; decide
  by_cases hd : c = 'd'; · subst hd; decide
  by_cases he : c = 'e'; · subst he; decide
  by_cases hf : c = 'f'; · subst hf; decide
  simp [hexUpper, ha, hb, hc, hd, he, hf]

/-- Hex parsing is case-insensitive (core loop). -/
theorem parseHexCore_hexUpper (s : List Char) :
    ∀ acc, parseHexCore acc (s.map hexUpper) = parseHexCore acc s := by
  induction s with
  | nil => intro acc; rfl
  | cons c cs ih =>
    intro acc
    simp only [List.map_cons, parseHexCore, hexDigitVal_hexUpper]
    cases hexDigitVal c with
    | none => rfl
    | some d => exact ih _

/-- Hex parsing is case-insensitive. -/
theorem parseHex_hexUpper (s : List Char) :
    parseHex (s.map hexUpper) = parseHex s := by
  cases s with
  | nil => rfl
  | cons c cs =>
    show parseHexCore 0 (List.map hexUpper (c :: cs)) = parseHexCore 0 (c :: cs)
    exact parseHexCore_hexUpper (c :: cs) 0

/-- C4: dispatch on the decoded response envelope.  Code 102 yields the
retryable error whatever the result payload holds; code 200 proceeds to
checksum verification (mismatch error or a decoded record, nothing
else); any other code yields a fatal error carrying the code value. -/
theorem c4_dispatch (m : MQTTResponse) :
    (m.Code = 102 → handleDecoded m = .error .retryLater) ∧
    (m.Code = 200 →
      handleDecoded m =
        if goParseUintHex32 m.Result.CRC
            ≠ crc32 (strBytes (goQuote m.Result.DataArea)) then
          .error (.crcMismatch (goParseUintHex32 m.Result.CRC)
            (crc32 (strBytes (goQuote m.Result.DataArea))))
        else .ok ((decodeDataStatus m.Result.DataArea).getD zeroDataStatus)) ∧
    (m.Code ≠ 102 → m.Code ≠ 200 →
      handleDecoded m = .error (.unexpectedCode m.Code)) := by
  refine ⟨fun h102 => ?_, fun h200 => ?_, fun n102 n200 => ?_⟩
  · simp [handleDecoded, h102]
  · simp [handleDecoded, h200]
  · simp [handleDecoded, n102, n200]

/-- C4 witness: a code-102 envelope whose checksum would not verify
still yields the retryable error; a code-7 envelope yields the fatal
unexpected-code error. -/
theorem c4_dispatch_witness :
    handleDecoded { zeroMQTTResponse with
        Code := 102
        Result := { zeroMQTTResult with
          CRC := strL "XYZ"
          DataArea := strL "notjson" } }
      = .error .retryLater ∧
    handleDecoded { zeroMQTTResponse with Code := 7 }
      = .error (.unexpectedCode 7) := by
  exact ⟨(c4_dispatch _).1 rfl, (c4_dispatch _).2.2 (by decide) (by decide)⟩

/-- C3: on a code-200 envelope the recomputed checksum is the CRC-32 of
the quoted-string rendering of the inner payload; when the declared
checksum parses (case-insensitively) to a different value, the outcome
is the fatal mismatch error and never the retryable error; and the
quoted rendering genuinely differs from the raw bytes (concrete
separation at the payload "notjson"). -/
theorem c3_checksum :
    (∀ (m : MQTTResponse) (v : Nat), m.Code = 200 →
      parseHex m.Result.CRC = some v → v < 2 ^ 32 →
      v ≠ crc32 (strBytes (goQuote m.Result.DataArea)) →
      handleDecoded m
        = .error (.crcMismatch v (crc32 (strBytes (goQuote m.Result.DataArea)))) ∧
      handleDecoded m ≠ .error .retryLater) ∧
    (∀ m : MQTTResponse,
      handleDecoded
          { m with Result := { m.Result with CRC := m.Result.CRC.map hexUpper } }
        = handleDecoded m) ∧
    crc32 (strBytes (goQuote (strL "notjson")))
      ≠ crc32 (strBytes (strL "notjson")) := by
  refine ⟨fun m v h200 hhex hlt hne => ?_, fun m => ?_, by decide⟩
  · have hgot : goParseUintHex32 m.Result.CRC = v := by
      simp only [goParseUintHex32, hhex]
      rw [if_pos hlt]
    constructor
    · simp [handleDecoded, h200, hgot, hne]
    · simp [handleDecoded, h200, hgot, hne]
  · simp [handleDecoded, goParseUintHex32, parseHex_hexUpper]

/-- C3 witness: a code-200 envelope declaring checksum "00000000"
(lowercase-insensitively parsed to 0) over payload "x" yields the
mismatch error with the checksum of the quoted rendering. -/
theorem c3_checksum_witness :
    handleDecoded { zeroMQTTResponse with
        Code := 200
        Result := { zeroMQTTResult with
          CRC := strL "00000000"
          DataArea := strL "x" } }
      = .error (.crcMismatch 0 (crc32 (strBytes (goQuote (strL "x"))))) := by
  exact (c3_checksum.1 _ 0 rfl (by decide) (by decide) (by decide)).1

/-- C2 (code bug): a code-200 envelope with matching checksum whose
inner payload is not valid JSON yields a *successful* zero-valued
telemetry record with no error — benwh.go:266 tests `err` instead of
`err2`, so the `PayloadDecodeError` branch (line 267) is dead code.  The
claim (and the error message in the source) say the malformed payload
must yield the fatal decode error. -/
theorem c2_payload_decode_bug :
    decodeDataStatus (strL "notjson") = none ∧
    handleDecoded c2Response = .ok zeroDataStatus ∧
    handleDecoded c2Response ≠ .error .statusDecodeError := by
  refine ⟨by decide, by decide, ?_⟩
  intro h
  rw [show handleDecoded c2Response = .ok zeroDataStatus from by decide] at h
  exact Except.noConfusion h

/-- C7 (code bug): a code-200 envelope whose declared checksum is not
valid hex is NOT reported as a malformed checksum — benwh.go:258 tests
`err` instead of `err2`, so the "not hex" branch (line 259) is dead code
and `got` silently becomes `ParseUint`'s on-error value: 0 for a syntax
error, `2^32 - 1` for a range error, after which the comparison reports
a checksum mismatch instead. -/
theorem c7_malformed_crc_bug :
    parseHex (strL "XYZ") = none ∧
    handleDecoded c7Response
      = .error (.crcMismatch 0 (crc32 (strBytes (goQuote (strL "notjson"))))) ∧
    (∀ s, handleDecoded c7Response ≠ .error (.invalidCRCNotHex s)) ∧
    handleDecoded c7RangeResponse
      = .error (.crcMismatch (2 ^ 32 - 1)
          (crc32 (strBytes (goQuote (strL "notjson"))))) := by
  refine ⟨by decide, by decide, fun s h => ?_, by decide⟩
  rw [show handleDecoded c7Response
        = .error (.crcMismatch 0 (crc32 (strBytes (goQuote (strL "notjson")))))
      from by decide] at h
  injection h with h2
  exact StatusError.noConfusion h2

/-- C8 (code bug): a body that is not valid JSON for the outer response
envelope is NOT reported as the mqtt response decode error —
benwh.go:241 tests `err` instead of `err2`, so the decode error (line
242) is dead code; `Status` dispatches on the zero-valued response and
fails with the fatal unexpected-code error carrying code 0 instead. -/
theorem c8_envelope_decode_bug :
    decodeMQTTResponse (strL "notjson") = none ∧
    handleBody (strL "notjson") = .error (.unexpectedCode 0) ∧
    handleBody (strL "notjson") ≠ .error .mqttDecodeError := by
  refine ⟨by decide, by decide, fun h => ?_⟩
  rw [show handleBody (strL "notjson") = .error (.unexpectedCode 0)
      from by decide] at h
  injection h with h2
  exact StatusError.noConfusion h2

/-- C9 counterexample: a login body that decodes but lacks any usable
token ("{}") still produces a non-error session, and that session's
token is empty — refuting the claim that `NewConn` fails whenever the
response lacks a usable token. -/
theorem c9_counterexample :
    decodeLoginResponse emptyLoginBody = some { Token := [] } ∧
    newConn conn0.config emptyLoginBody
      = some { config := conn0.config, token := [] } := by
  exact ⟨by decide, by decide⟩

/-- C9 (amended): `NewConn` returns an error exactly when the login
response body cannot be decoded; on any body that decodes it returns a
session carrying the response's `result.token`, with no check that the
token is usable (the token may be empty). -/
theorem c9_amended (conf : Config) (body : List Char) :
    (newConn conf body = none ↔ decodeLoginResponse body = none) ∧
    (∀ r, decodeLoginResponse body = some r →
      newConn conf body = some { config := conf, token := r.Token }) := by
  constructor
  · cases h : decodeLoginResponse body <;> simp [newConn, h]
  · intro r hr
    simp [newConn, hr]

/-- C9 amended witness: at the empty-object body, decoding succeeds with
the empty token and `NewConn` yields the session with the empty token. -/
theorem c9_amended_witness :
    newConn conn0.config emptyLoginBody
      = some { config := conn0.config, token := [] } := by
  exact (c9_amended conn0.config emptyLoginBody).2 { Token := [] } (by decide)

/-! ## Parser/serializer roundtrip development (for the splicing
invariant) -/

/-- The code point of `digitChar d` for `d < 10`. -/
theorem toNat_digitChar (d : Nat) (h : d < 10) :
    (digitChar d).toNat = 48 + d := by
  have hv : Nat.isValidChar (48 + d) := Or.inl (by omega)
  rw [digitChar, Char.ofNat, dif_pos hv]
  rfl

/-- `digitChar d` is a digit for `d < 10`. -/
theorem isDigitC_digitChar (d : Nat) (h : d < 10) :
    isDigitC (digitChar d) = true := by
  simp [isDigitC, toNat_digitChar d h]
  omega

/-- The decimal rendering loop only prepends digits. -/
theorem natDecAux_all (f : Nat) :
    ∀ n acc, n < f →
      (natDecAux f n acc).all isDigitC = acc.all isDigitC := by
  induction f with
  | zero => intro n acc h; omega
  | succ f ih =>
    intro n acc h
    rw [natDecAux]
    by_cases h10 : n < 10
    · rw [if_pos h10]
      simp [isDigitC_digitChar n h10]
    · rw [if_neg h10]
      rw [ih (n / 10) _ (by omega)]
      simp [isDigitC_digitChar (n % 10) (Nat.mod_lt n (by omega))]

/-- The decimal rendering loop never returns the empty list. -/
theorem natDecAux_ne_nil (f : Nat) :
    ∀ n acc, n < f → natDecAux f n acc ≠ [] := by
  induction f with
  | zero => intro n acc h; omega
  | succ f ih =>
    intro n acc h
    rw [natDecAux]
    by_cases h10 : n < 10
    · rw [if_pos h10]; exact List.cons_ne_nil _ _
    · rw [if_neg h10]; exact ih (n / 10) _ (by omega)

/-- The decimal rendering of a natural number is a well-formed number
literal. -/
theorem wfNum_natDec (n : Nat) : wfNum (natDec n) = true := by
  have h1 : (natDec n).all isDigitC = true := by
    rw [natDec, natDecAux_all (n + 1) n [] (by omega)]; rfl
  have h2 : natDec n ≠ [] := natDecAux_ne_nil (n + 1) n [] (by omega)
  have h3 : (natDec n).isEmpty = false := by
    cases hq : natDec n with
    | nil => exact absurd hq h2
    | cons a l => rfl
  simp [wfNum, h1, h3]

/-- Parsing a serialized string body undoes the escaping and stops at
the closing quote. -/
theorem parseStrBody_ser (s : List Char) :
    ∀ rest, parseStrBody (serStrBody s ++ '"' :: rest) = some (s, rest) := by
  induction s with
  | nil =>
    intro rest
    rw [serStrBody, List.nil_append, parseStrBody.eq_def]
    simp
  | cons c s ih =>
    intro rest
    rw [serStrBody, List.append_assoc]
    by_cases h1 : c = '"'
    · subst h1
      rw [show escChar '"' = ['\\', '"'] from rfl]
      rw [List.cons_append, List.cons_append, parseStrBody.eq_def]
      simp [ih rest]
    · by_cases h2 : c = '\\'
      · subst h2
        rw [show escChar '\\' = ['\\', '\\'] from rfl]
        rw [List.cons_append, List.cons_append, parseStrBody.eq_def]
        simp [ih rest]
      · rw [escChar, if_neg h1, if_neg h2, List.cons_append, List.nil_append,
            parseStrBody.eq_def]
        simp only [if_neg h1, if_neg h2, ih rest]
        rfl

/-- Greedy digit reading of `ds ++ rest` stops exactly at `rest` when
`ds` is all digits and `rest` does not begin with one. -/
theorem takeWhile_digits (ds : List Char) :
    ∀ rest, ds.all isDigitC = true → digitStart rest = false →
      (ds ++ rest).takeWhile isDigitC = ds ∧
      (ds ++ rest).dropWhile isDigitC = rest := by
  induction ds with
  | nil =>
    intro rest _ hr
    cases rest with
    | nil => exact ⟨rfl, rfl⟩
    | cons c t =>
      have hc : isDigitC c = false := hr
      simp [List.takeWhile_cons, List.dropWhile_cons, hc]
  | cons d ds ih =>
    intro rest hall hr
    rw [List.all_cons, Bool.and_eq_true] at hall
    have hd : isDigitC d = true := hall.1
    have hds : ds.all isDigitC = true := hall.2
    have := ih rest hds hr
    simp [List.takeWhile_cons, List.dropWhile_cons, hd, this.1, this.2]

/-- A digit is none of the structural characters the parser
dispatches on. -/
theorem isDigitC_ne (d : Char) (h : isDigitC d = true) :
    d ≠ '"' ∧ d ≠ '[' ∧ d ≠ lbrace ∧ d ≠ 't' ∧ d ≠ 'f' ∧ d ≠ 'n' ∧
    d ≠ ']' ∧ d ≠ rbrace := by
  refine ⟨?_, ?_, ?_, ?_, ?_, ?_, ?_, ?_⟩ <;>
    (intro e; rw [e] at h; exact absurd h (by decide))

/-- The serialization of a well-formed value is non-empty, and its first
character is neither a closing bracket nor a closing brace (what makes
the end of an enclosing array or object unambiguous). -/
theorem serJson_head (v : Json) (h : wfJson v = true) :
    ∃ c t, serJson v = c :: t ∧ c ≠ ']' ∧ c ≠ rbrace := by
  cases v with
  | num ds =>
    cases hd : ds with
    | nil =>
      rw [wfJson, hd] at h
      exact absurd h (by decide)
    | cons d t =>
      rw [wfJson, hd] at h
      have hdig : isDigitC d = true := by
        rw [wfNum, Bool.and_eq_true, List.all_cons, Bool.and_eq_true] at h
        exact h.2.1
      have hne := isDigitC_ne d hdig
      exact ⟨d, t, by simp [serJson, hd],
        hne.2.2.2.2.2.2.1, hne.2.2.2.2.2.2.2⟩
  | str s => exact ⟨'"', _, rfl, by decide, by decide⟩
  | boolean b =>
    cases b with
    | true => exact ⟨'t', _, rfl, by decide, by decide⟩
    | false => exact ⟨'f', _, rfl, by decide, by decide⟩
  | null => exact ⟨'n', _, rfl, by decide, by decide⟩
  | arr a => exact ⟨'[', _, rfl, by decide, by decide⟩
  | obj o => exact ⟨lbrace, _, rfl, by decide, by decide⟩

/-- Unfolding of `serArr` on a single item. -/
theorem serArr_cons_nil (v : Json) : serArr (.cons v .nil) = serJson v := rfl

/-- Unfolding of `serArr` on two or more items. -/
theorem serArr_cons_cons (v w : Json) (a : JsonArr) :
    serArr (.cons v (.cons w a)) = serJson v ++ ',' :: serArr (.cons w a) :=
  rfl

/-- Unfolding of `serObj` on a single field. -/
theorem serObj_cons_nil (k : List Char) (v : Json) :
    serObj (.cons k v .nil) = '"' :: serStrBody k ++ '"' :: ':' :: serJson v :=
  rfl

/-- Unfolding of `serObj` on two or more fields. -/
theorem serObj_cons_cons (k : List Char) (v : Json) (k2 : List Char)
    (v2 : Json) (o : JsonObj) :
    serObj (.cons k v (.cons k2 v2 o)) =
      '"' :: serStrBody k ++ '"' :: ':' :: serJson v
        ++ ',' :: serObj (.cons k2 v2 o) :=
  rfl

/-- Unfolding of `digitStart` on a non-empty input. -/
theorem digitStart_cons (c : Char) (t : List Char) :
    digitStart (c :: t) = isDigitC c := rfl

/-- One step of `parseVal` on an input opening a string. -/
theorem parseVal_strStep (f : Nat) (t : List Char) :
    parseVal (f + 1) ('"' :: t)
      = (parseStrBody t).map (fun p => (Json.str p.1, p.2)) := by
  rw [parseVal.eq_def]
  simp

/-- One step of `parseVal` on an input opening a non-empty array. -/
theorem parseVal_arrStep (f : Nat) (c0 : Char) (t : List Char)
    (h0 : ¬c0 = ']') :
    parseVal (f + 1) ('[' :: c0 :: t)
      = (parseItems f (c0 :: t)).map (fun p => (Json.arr p.1, p.2)) := by
  rw [parseVal.eq_def]
  simp [h0]

/-- One step of `parseVal` on an input opening a non-empty object. -/
theorem parseVal_objStep (f : Nat) (c0 : Char) (t : List Char)
    (h0 : ¬c0 = rbrace) :
    parseVal (f + 1) (lbrace :: c0 :: t)
      = (parseFields f (c0 :: t)).map (fun p => (Json.obj p.1, p.2)) := by
  rw [parseVal.eq_def]
  simp [h0, show ¬lbrace = '"' from by decide,
    show ¬lbrace = '[' from by decide,
    show isDigitC lbrace = false from by decide]

mutual

/-- Roundtrip: parsing the serialization of a well-formed value (with
any following input that does not begin with a digit) returns the value
and the rest, given enough fuel. -/
theorem parseSerJ (v : Json) : ∀ (n : Nat) (rest : List Char),
    wfJson v = true → fuelJ v ≤ n → digitStart rest = false →
    parseVal n (serJson v ++ rest) = some (v, rest) := by
  cases v with
  | num ds =>
    intro n rest hwf hf hr
    cases n with
    | zero => exfalso; simp [fuelJ] at hf
    | succ f =>
      rw [serJson]
      cases hd : ds with
      | nil => rw [hd] at hwf; exact absurd hwf (by decide)
      | cons d t =>
        subst hd
        rw [wfJson, wfNum, Bool.and_eq_true, List.all_cons,
            Bool.and_eq_true] at hwf
        have hdig : isDigitC d = true := hwf.2.1
        have hne := isDigitC_ne d hdig
        rw [List.cons_append, parseVal.eq_def]
        simp only [if_neg hne.1, if_neg hne.2.1, if_neg hne.2.2.1, hdig,
          if_pos, if_neg hne.2.2.2.1, if_neg hne.2.2.2.2.1,
          if_neg hne.2.2.2.2.2.1]
        have ht := takeWhile_digits (d :: t) rest
          (by rw [List.all_cons, Bool.and_eq_true]; exact ⟨hdig, hwf.2.2⟩) hr
        have e1 : List.takeWhile isDigitC (d :: (t ++ rest)) = d :: t := ht.1
        have e2 : List.dropWhile isDigitC (d :: (t ++ rest)) = rest := ht.2
        rw [e1, e2]
  | str s =>
    intro n rest hwf hf hr
    cases n with
    | zero => exfalso; simp [fuelJ] at hf
    | succ f =>
      rw [serJson, List.append_assoc, List.cons_append]
      show parseVal (f + 1) ('"' :: (serStrBody s ++ '"' :: rest)) = _
      rw [parseVal_strStep, parseStrBody_ser s rest]
      rfl
  | boolean b =>
    intro n rest hwf hf hr
    cases n with
    | zero => exfalso; simp [fuelJ] at hf
    | succ f =>
      cases b with
      | true =>
        rw [serJson, parseVal.eq_def]
        simp [show ¬('t' : Char) = lbrace from by decide,
          show isDigitC 't' = false from by decide]
      | false =>
        rw [serJson, parseVal.eq_def]
        simp [show ¬('f' : Char) = lbrace from by decide,
          show isDigitC 'f' = false from by decide]
  | null =>
    intro n rest hwf hf hr
    cases n with
    | zero => exfalso; simp [fuelJ] at hf
    | succ f =>
      rw [serJson, parseVal.eq_def]
      simp [show ¬('n' : Char) = lbrace from by decide,
        show isDigitC 'n' = false from by decide]
  | arr a =>
    intro n rest hwf hf hr
    cases n with
    | zero => exfalso; simp [fuelJ] at hf
    | succ f =>
      rw [serJson, List.append_assoc, List.cons_append]
      cases a with
      | nil =>
        rw [parseVal.eq_def]
        simp [serArr]
      | cons v a2 =>
        rw [wfJson, wfArr, Bool.and_eq_true] at hwf
        have hfa : fuelA (.cons v a2) ≤ f := by
          simp [fuelJ] at hf; omega
        obtain ⟨c0, t0, hser, hne1, _⟩ := serJson_head v hwf.1
        have hY : ∃ Y, serArr (.cons v a2) ++ ']' :: rest = c0 :: Y := by
          cases a2 with
          | nil =>
            exact ⟨t0 ++ ']' :: rest, by rw [serArr_cons_nil, hser]; rfl⟩
          | cons w a3 =>
            exact ⟨(t0 ++ ',' :: serArr (.cons w a3)) ++ ']' :: rest,
              by rw [serArr_cons_cons, hser]; rfl⟩
        obtain ⟨Y, hY⟩ := hY
        show parseVal (f + 1) ('[' :: (serArr (.cons v a2) ++ ']' :: rest)) = _
        rw [hY, parseVal_arrStep f c0 Y hne1, ← hY,
            parseSerA v a2 f rest hwf.1 hwf.2 hfa]
        rfl
  | obj o =>
    intro n rest hwf hf hr
    cases n with
    | zero => exfalso; simp [fuelJ] at hf
    | succ f =>
      rw [serJson, List.append_assoc, List.cons_append]
      cases o with
      | nil =>
        rw [parseVal.eq_def]
        simp [serObj, show ¬lbrace = '"' from by decide,
          show ¬lbrace = '[' from by decide,
          show isDigitC lbrace = false from by decide]
      | cons k v o2 =>
        rw [wfJson, wfObj, Bool.and_eq_true] at hwf
        have hfo : fuelO (.cons k v o2) ≤ f := by
          simp [fuelJ] at hf; omega
        have hY : ∃ Y, serObj (.cons k v o2) ++ rbrace :: rest = '"' :: Y := by
          cases o2 with
          | nil =>
            exact ⟨(serStrBody k ++ '"' :: ':' :: serJson v) ++ rbrace :: rest,
              by rw [serObj_cons_nil]; rfl⟩
          | cons k2 v2 o3 =>
            exact ⟨((serStrBody k ++ '"' :: ':' :: serJson v)
                ++ ',' :: serObj (.cons k2 v2 o3)) ++ rbrace :: rest,
              by rw [serObj_cons_cons]; rfl⟩
        obtain ⟨Y, hY⟩ := hY
        show parseVal (f + 1)
          (lbrace :: (serObj (.cons k v o2) ++ rbrace :: rest)) = _
        rw [hY, parseVal_objStep f '"' Y (by decide), ← hY,
            parseSerO k v o2 f rest hwf.1 hwf.2 hfo]
        rfl
termination_by sizeOf v

/-- Roundtrip for non-empty serialized array item lists, consuming the
closing bracket. -/
theorem parseSerA (v : Json) (a : JsonArr) : ∀ (n : Nat) (rest : List Char),
    wfJson v = true → wfArr a = true → fuelA (.cons v a) ≤ n →
    parseItems n (serArr (.cons v a) ++ ']' :: rest)
      = some (.cons v a, rest) := by
  cases a with
  | nil =>
    intro n rest hv _ hf
    cases n with
    | zero => exfalso; simp [fuelA] at hf
    | succ f =>
      rw [serArr_cons_nil, parseItems.eq_def]
      simp [parseSerJ v f (']' :: rest) hv
        (by simp [fuelA] at hf; omega)
        (by rw [digitStart_cons]; decide)]
  | cons w a3 =>
    intro n rest hv ha hf
    cases n with
    | zero => exfalso; simp [fuelA] at hf
    | succ f =>
      rw [wfArr, Bool.and_eq_true] at ha
      rw [serArr_cons_cons, List.append_assoc, List.cons_append,
          parseItems.eq_def]
      simp [parseSerJ v f (',' :: (serArr (.cons w a3) ++ ']' :: rest)) hv
          (by simp [fuelA] at hf; omega)
          (by rw [digitStart_cons]; decide),
        parseSerA w a3 f rest ha.1 ha.2
          (by simp [fuelA] at hf ⊢; omega)]
termination_by sizeOf v + sizeOf a

/-- Roundtrip for non-empty serialized object field lists, consuming the
closing brace. -/
theorem parseSerO (k : List Char) (v : Json) (o : JsonObj) :
    ∀ (n : Nat) (rest : List Char),
    wfJson v = true → wfObj o = true → fuelO (.cons k v o) ≤ n →
    parseFields n (serObj (.cons k v o) ++ rbrace :: rest)
      = some (.cons k v o, rest) := by
  cases o with
  | nil =>
    intro n rest hv _ hf
    cases n with
    | zero => exfalso; simp [fuelO] at hf
    | succ f =>
      rw [serObj_cons_nil, List.append_assoc, List.cons_append,
          parseFields.eq_def]
      simp only [List.cons_append, List.append_assoc]
      simp [parseStrBody_ser,
        parseSerJ v f (rbrace :: rest) hv
          (by simp [fuelO] at hf; omega)
          (by rw [digitStart_cons]; decide),
        show ¬rbrace = ',' from by decide]
  | cons k2 v2 o3 =>
    intro n rest hv ho hf
    cases n with
    | zero => exfalso; simp [fuelO] at hf
    | succ f =>
      rw [wfObj, Bool.and_eq_true] at ho
      rw [serObj_cons_cons, List.append_assoc, List.append_assoc,
          List.cons_append, parseFields.eq_def]
      simp only [List.cons_append, List.append_assoc]
      simp [parseStrBody_ser,
        parseSerJ v f
          (',' :: (serObj (.cons k2 v2 o3) ++ rbrace :: rest)) hv
          (by simp [fuelO] at hf; omega)
          (by rw [digitStart_cons]; decide),
        parseSerO k2 v2 o3 f rest ho.1 ho.2
          (by simp [fuelO] at hf ⊢; omega)]
termination_by sizeOf v + sizeOf o

end

mutual

/-- The fuel needed for a well-formed value is bounded by the length of
its serialization (plus one for item/field lists). -/
theorem fuelJ_le (v : Json) : wfJson v = true → fuelJ v ≤ (serJson v).length := by
  cases v with
  | num ds =>
    intro h
    rw [wfJson, wfNum, Bool.and_eq_true] at h
    have : ds ≠ [] := by
      cases ds with
      | nil => exact absurd h.1 (by decide)
      | cons a l => exact List.cons_ne_nil a l
    have := List.length_pos.mpr this
    rw [fuelJ, serJson]
    omega
  | str s =>
    intro _
    rw [fuelJ, serJson]
    simp
  | boolean b =>
    intro _
    cases b <;> simp [fuelJ, serJson]
  | null => intro _; simp [fuelJ, serJson]
  | arr a =>
    intro h
    rw [wfJson] at h
    have := fuelA_le a h
    rw [fuelJ, serJson]
    simp only [List.length_append, List.cons_append, List.length_cons]
    omega
  | obj o =>
    intro h
    rw [wfJson] at h
    have := fuelO_le o h
    rw [fuelJ, serJson]
    simp only [List.length_append, List.cons_append, List.length_cons]
    omega
termination_by sizeOf v

/-- Fuel bound for array item lists. -/
theorem fuelA_le (a : JsonArr) : wfArr a = true → fuelA a ≤ (serArr a).length + 1 := by
  cases a with
  | nil => intro _; simp [fuelA, serArr]
  | cons v a2 =>
    intro h
    rw [wfArr, Bool.and_eq_true] at h
    have hv := fuelJ_le v h.1
    cases a2 with
    | nil =>
      rw [fuelA, fuelA, serArr_cons_nil]
      omega
    | cons w a3 =>
      have ha := fuelA_le (.cons w a3) h.2
      rw [fuelA, serArr_cons_cons]
      simp only [List.length_append, List.length_cons]
      omega
termination_by sizeOf a

/-- Fuel bound for object field lists. -/
theorem fuelO_le (o : JsonObj) : wfObj o = true → fuelO o ≤ (serObj o).length + 1 := by
  cases o with
  | nil => intro _; simp [fuelO, serObj]
  | cons k v o2 =>
    intro h
    rw [wfObj, Bool.and_eq_true] at h
    have hv := fuelJ_le v h.1
    cases o2 with
    | nil =>
      rw [fuelO, fuelO, serObj_cons_nil]
      simp only [List.length_append, List.length_cons, List.cons_append]
      omega
    | cons k2 v2 o3 =>
      have ho := fuelO_le (.cons k2 v2 o3) h.2
      rw [fuelO, serObj_cons_cons]
      simp only [List.length_append, List.length_cons, List.cons_append]
      omega
termination_by sizeOf o

end

/-- Parsing a full serialized document returns the value. -/
theorem parseDoc_ser (v : Json) (h : wfJson v = true) :
    parseDoc (serJson v) = some v := by
  rw [parseDoc]
  have hle : fuelJ v ≤ (serJson v).length + 1 :=
    le_trans (fuelJ_le v h) (by omega)
  have hp := parseSerJ v ((serJson v).length + 1) [] h hle rfl
  rw [List.append_nil] at hp
  rw [hp]

/-- On plain characters the Go JSON encoder agrees with the simple
escaper. -/
theorem goEncChar_plain (c : Char) (h : plainChar c = true) :
    goEncChar c = escChar c := by
  rw [plainChar] at h
  simp only [Bool.and_eq_true, Bool.not_eq_true', decide_eq_true_eq,
    decide_eq_false_iff_not] at h
  obtain ⟨⟨⟨⟨⟨h1, h2⟩, h3⟩, h4⟩, h5⟩, h6⟩ := h
  by_cases hq : c = '"'
  · subst hq; rfl
  by_cases hb : c = '\\'
  · subst hb; rfl
  rw [goEncChar, escChar, if_neg hq, if_neg hb, if_neg hq, if_neg hb,
      if_neg h2, if_neg h3, if_neg h4,
      if_neg (show ¬c.toNat = 10 by omega),
      if_neg (show ¬c.toNat = 13 by omega),
      if_neg (show ¬c.toNat = 9 by omega),
      if_neg (show ¬c.toNat < 0x20 by omega),
      if_neg h5, if_neg h6]

/-- On strings of plain characters the Go JSON string encoder body
agrees with the serializer string body. -/
theorem goEncBody_plain (s : List Char) (h : s.all plainChar = true) :
    goEncBody s = serStrBody s := by
  induction s with
  | nil => rfl
  | cons c t ih =>
    rw [List.all_cons, Bool.and_eq_true] at h
    rw [goEncBody, serStrBody, goEncChar_plain c h.1, ih h.2]

/-- On strings of plain characters the Go JSON string encoder agrees
with the serialization of a JSON string value. -/
theorem goEncStr_plain (s : List Char) (h : s.all plainChar = true) :
    goEncStr s = serJson (.str s) := by
  rw [goEncStr, serJson, goEncBody_plain s h]

/-- The marshalled request splits at the dataArea slot. -/
theorem marshal_split (r : MQTTRequest) :
    marshalMQTTRequest r = envPre r ++ (goEncStr r.DataArea ++ [rbrace]) := by
  rw [marshalMQTTRequest, envPre]
  simp [List.append_assoc, List.cons_append]

/-- The Go JSON encoding of the placeholder content is exactly the
quoted placeholder `Status` splices over. -/
theorem goEncStr_placeholder :
    goEncStr (strL ":data-area:") = placeholder := by decide

/-- `replaceFirst` rewrites exactly the marked slot when no earlier
occurrence of the pattern exists. -/
theorem replaceFirst_at (pat repl b : List Char) (hpat : pat ≠ []) :
    ∀ a, noOccBefore pat (a ++ (pat ++ b)) a.length = true →
      replaceFirst pat repl (a ++ (pat ++ b)) = a ++ (repl ++ b) := by
  intro a
  induction a with
  | nil =>
    intro _
    rw [List.nil_append, List.nil_append]
    cases hp : pat with
    | nil => exact absurd hp hpat
    | cons p pt =>
      rw [List.cons_append, replaceFirst]
      rw [if_pos (by
        rw [List.isPrefixOf_iff_prefix, ← List.cons_append]
        exact List.prefix_append _ _)]
      rw [← List.cons_append, List.drop_left]
  | cons x a ih =>
    intro hno
    simp only [noOccBefore, List.all_eq_true, List.mem_range,
      Bool.not_eq_true'] at hno
    have h0 : pat.isPrefixOf ((x :: a) ++ (pat ++ b)) = false := by
      have := hno 0 (by simp)
      simpa using this
    rw [List.cons_append, replaceFirst]
    rw [if_neg (show ¬(pat.isPrefixOf (x :: (a ++ (pat ++ b))) = true) from by
      intro hpre
      rw [show (x :: (a ++ (pat ++ b))) = ((x :: a) ++ (pat ++ b)) from rfl,
          h0] at hpre
      exact Bool.noConfusion hpre)]
    rw [ih (by
      simp only [noOccBefore, List.all_eq_true, List.mem_range,
        Bool.not_eq_true']
      intro i hi
      have := hno (i + 1) (by simp at hi ⊢; omega)
      simpa using this)]
    exact (List.cons_append x a (repl ++ b)).symm

/-- The envelope with the payload spliced in is the serialization of the
envelope JSON value. -/
theorem env_ser (r : MQTTRequest) (p : Json)
    (hL : r.Lang.all plainChar = true) (hE : r.EquipNo.all plainChar = true)
    (hC : r.CRC.all plainChar = true) :
    serJson (envJson r p) = envPre r ++ (serJson p ++ [rbrace]) := by
  rw [envJson, envFields, serJson,
      serObj_cons_cons, serObj_cons_cons, serObj_cons_cons, serObj_cons_cons,
      serObj_cons_cons, serObj_cons_cons, serObj_cons_cons, serObj_cons_cons,
      serObj_cons_nil, envPre]
  simp only [serJson]
  simp [goEncStr, goEncBody_plain _ hL, goEncBody_plain _ hE,
    goEncBody_plain _ hC, strL, serStrBody, escChar, List.append_assoc,
    List.cons_append]

/-- The envelope JSON value is well-formed whenever the payload is. -/
theorem wf_envJson (r : MQTTRequest) (p : Json) (hp : wfJson p = true) :
    wfJson (envJson r p) = true := by
  rw [envJson, envFields]
  simp [wfJson, wfObj, wfNum_natDec, hp]

/-- Looking up the dataArea key in the envelope fields returns the
payload. -/
theorem lookup_env (r : MQTTRequest) (p : Json) :
    lookupObj (strL "dataArea") (envFields r p) = some p := by
  rw [envFields]
  rw [lookupObj, if_neg (show ¬strL "lang" = strL "dataArea" by decide),
      lookupObj, if_neg (show ¬strL "cmdType" = strL "dataArea" by decide),
      lookupObj, if_neg (show ¬strL "equipNo" = strL "dataArea" by decide),
      lookupObj, if_neg (show ¬strL "type" = strL "dataArea" by decide),
      lookupObj, if_neg (show ¬strL "timeStamp" = strL "dataArea" by decide),
      lookupObj, if_neg (show ¬strL "snno" = strL "dataArea" by decide),
      lookupObj, if_neg (show ¬strL "len" = strL "dataArea" by decide),
      lookupObj, if_neg (show ¬strL "crc" = strL "dataArea" by decide),
      lookupObj, if_pos rfl]

/-- C6: splicing invariant.  For every well-formed inner payload `P`, the
outbound envelope built by marshalling with the placeholder in the
inner-payload slot and then splicing the bytes of `P` over the quoted
placeholder parses as JSON, and extracting its `dataArea` slot yields
exactly the bytes of `P` — nested objects and arrays included.  The
hypotheses say the placeholder sits in the dataArea slot (as `Status`
always arranges), the string fields are plain (no characters the Go
encoder escapes), and the quoted placeholder does not occur earlier in
the marshalled prefix. -/
theorem c6_splice (r : MQTTRequest) (p : Json)
    (hwf : wfJson p = true)
    (hda : r.DataArea = strL ":data-area:")
    (hL : r.Lang.all plainChar = true)
    (hE : r.EquipNo.all plainChar = true)
    (hC : r.CRC.all plainChar = true)
    (hocc : noOccBefore placeholder (envPre r ++ (placeholder ++ [rbrace]))
        (envPre r).length = true) :
    extractField (strL "dataArea") (buildEnvelope r (serJson p))
      = some (serJson p) := by
  have h1 : marshalMQTTRequest r = envPre r ++ (placeholder ++ [rbrace]) := by
    rw [marshal_split, hda, goEncStr_placeholder]
  have h2 : buildEnvelope r (serJson p)
      = envPre r ++ (serJson p ++ [rbrace]) := by
    rw [buildEnvelope, h1,
        replaceFirst_at placeholder (serJson p) [rbrace] (by decide)
          (envPre r) hocc]
  have h3 : envPre r ++ (serJson p ++ [rbrace]) = serJson (envJson r p) :=
    (env_ser r p hL hE hC).symm
  rw [extractField, h2, h3, parseDoc_ser (envJson r p) (wf_envJson r p hwf)]
  show (lookupObj (strL "dataArea") (envFields r p)).map serJson
    = some (serJson p)
  rw [lookup_env r p]
  rfl

/-- C6 witness: the invariant instantiated at the envelope `Status`
builds for the concrete connection and a nested payload (object holding
a nested object and an array). -/
theorem c6_splice_witness :
    extractField (strL "dataArea")
        (buildEnvelope (mkStatusRequest conn0 1731886695 conn0_device_ne)
          (serJson c6Payload))
      = some (serJson c6Payload) := by
  exact c6_splice (mkStatusRequest conn0 1731886695 conn0_device_ne)
    c6Payload (by decide) rfl (by decide) (by decide) (by decide) (by decide)

end Benwh
